import Mathlib

/-!
# Verification of the invoice builder (`invoice.go`, package `mpower`)

Shallow embedding of the invoice-building core of the mpower payment-gateway
client SDK, and proofs of its specified properties.

Modelling conventions:
* Go slices (`[]item`, `[]tax`) become `List`; a nil slice is the empty list.
* Go maps (`map[string]item` etc.) become total functions `String → Option _`
  (`GoMap`); `make(...)` is the everywhere-`none` map `emptyMap`; `m[k] = v`
  is the pointwise update `mapInsert`.  A nil-able map field
  (`CustomData map[string]interface{}`) is wrapped in `Option`, `none`
  standing for the Go nil map.
* Go `float32` values are modelled as exact rationals `Rat`: the code only
  stores them and compares one of them with literal `0`, never computes with
  them, so the rational model is faithful on every value the claims mention.
* Go `int` is modelled as `Int` (only stored, never computed with).
* A Go method that mutates its receiver becomes a function
  `Invoice … → Invoice …` returning the updated state; a method that can also
  return an `error` returns `Invoice … × Option String` (`some msg` = error);
  a method that can `panic` returns `Option (Invoice …)` (`none` = panic).
* The opaque collaborator types `*Setup` and `Store` and the
  `interface{}` custom-data payload are type parameters `S`, `St`, `V`;
  the pointer `*Setup` is `Option S` (`none` = nil pointer).
* `fmt.Sprintf("item_%d", ix)` is modelled by `itemKeyStr`, built on a
  fuel-based decimal printer `decDigitsAux` (fuel makes the recursion
  structural, so that the kernel can evaluate it; `decDigitsAux_fuel_irrel`
  shows the fuel is irrelevant once sufficient).
* The `sync.RWMutex` does not appear in the sequential model; the
  interleaving model for `SetCustomData` (see `CConfig`/`cStep`) makes the
  lock explicit.
-/

namespace MPower

/-- Go map `map[string]α`: lookup as a total function into `Option`. -/
abbrev GoMap (α : Type) : Type := String → Option α

/-- `make(map[string]α)`: the empty map. -/
def emptyMap {α : Type} : GoMap α := fun _ => none

/-- `m[k] = v`: pointwise update of a Go map. -/
def mapInsert {α : Type} (m : GoMap α) (k : String) (v : α) : GoMap α :=
  fun k' => if k' = k then some v else m k'

/-- `item` struct (invoice.go lines 10–16): one line item. -/
structure item where
  Name : String
  Quantity : Int
  UnitPrice : Rat
  TotalPrice : Rat
  Description : String
deriving DecidableEq, Repr

/-- `tax` struct (invoice.go lines 20–23): one tax entry. -/
structure tax where
  Name : String
  Amount : Rat
deriving DecidableEq, Repr

/-- Inner `invoice` struct (invoice.go lines 27–35). -/
structure invoice where
  ItemsArr : List item
  TaxesArr : List tax
  Items : GoMap item
  Taxes : GoMap tax
  TotalAmount : Rat
  Description : String
  Actions : GoMap String

/-- Outer `Invoice` struct (invoice.go lines 40–46).  `S` stands for the
collaborator type `Setup` (held through a nil-able pointer), `St` for `Store`,
`V` for the `interface{}` payload type of `CustomData`.  The embedded
`sync.RWMutex` has no sequential content and is omitted here; the
interleaving model below reinstates it. -/
structure Invoice (S St V : Type) where
  Setup : Option S
  Store : St
  InvoiceIn : invoice
  CustomData : Option (GoMap V)

variable {S St V : Type}

/-- `AddItem` (invoice.go lines 53–68): returns a duplicate-name error when
some existing item has exactly the same name, otherwise appends the new item.
The Go loop returns on the first matching element; whether any element
matches is `List.any`. -/
def AddItem (i : Invoice S St V) (name : String) (quantity : Int)
    (unitPrice : Rat) (totalPrice : Rat) (desc : String) :
    Invoice S St V × Option String :=
  if i.InvoiceIn.ItemsArr.any (fun value => value.Name == name) then
    (i, some ("Invoice item with name " ++ name ++ " already exists"))
  else
    ({ i with InvoiceIn := { i.InvoiceIn with
        ItemsArr := i.InvoiceIn.ItemsArr ++
          [⟨name, quantity, unitPrice, totalPrice, desc⟩] } }, none)

/-- `RemoveItem` (invoice.go lines 74–81): removes the first item whose name
matches exactly (`append(arr[:ix], arr[ix+1:]...)` then `break`), leaving the
rest in order; does nothing when no item matches.  This is `List.eraseP`. -/
def RemoveItem (i : Invoice S St V) (name : String) : Invoice S St V :=
  { i with InvoiceIn := { i.InvoiceIn with
      ItemsArr := i.InvoiceIn.ItemsArr.eraseP (fun value => value.Name == name) } }

/-- `ClearAllItems` (invoice.go lines 87–90): `ItemsArr = nil`,
`Items = make(map[string]item)`. -/
def ClearAllItems (i : Invoice S St V) : Invoice S St V :=
  { i with InvoiceIn := { i.InvoiceIn with ItemsArr := [], Items := emptyMap } }

/-- `AddTax` (invoice.go lines 97–109): symmetric to `AddItem`. -/
def AddTax (i : Invoice S St V) (name : String) (amount : Rat) :
    Invoice S St V × Option String :=
  if i.InvoiceIn.TaxesArr.any (fun value => value.Name == name) then
    (i, some ("Tax with " ++ name ++ " already exists"))
  else
    ({ i with InvoiceIn := { i.InvoiceIn with
        TaxesArr := i.InvoiceIn.TaxesArr ++ [⟨name, amount⟩] } }, none)

/-- `RemoveTax` (invoice.go lines 115–122): symmetric to `RemoveItem`. -/
def RemoveTax (i : Invoice S St V) (name : String) : Invoice S St V :=
  { i with InvoiceIn := { i.InvoiceIn with
      TaxesArr := i.InvoiceIn.TaxesArr.eraseP (fun value => value.Name == name) } }

/-- `ClearAllTaxes` (invoice.go lines 128–131). -/
def ClearAllTaxes (i : Invoice S St V) : Invoice S St V :=
  { i with InvoiceIn := { i.InvoiceIn with TaxesArr := [], Taxes := emptyMap } }

/-- `Clear` (invoice.go lines 137–140): `ClearAllItems` then `ClearAllTaxes`. -/
def Clear (i : Invoice S St V) : Invoice S St V :=
  ClearAllTaxes (ClearAllItems i)

/-- `SetDescription` (invoice.go lines 147–153): panics (`none`) on the empty
string, otherwise stores the description. -/
def SetDescription (i : Invoice S St V) (desc : String) : Option (Invoice S St V) :=
  if desc = "" then none
  else some { i with InvoiceIn := { i.InvoiceIn with Description := desc } }

/-- `SetTotalAmount` (invoice.go lines 160–166): panics (`none`) on amount
zero, otherwise stores the amount. -/
def SetTotalAmount (i : Invoice S St V) (amt : Rat) : Option (Invoice S St V) :=
  if amt = 0 then none
  else some { i with InvoiceIn := { i.InvoiceIn with TotalAmount := amt } }

/-- `SetCustomData` (invoice.go lines 173–180), sequential semantics: make
the map when it is nil, then insert/overwrite the key (the Go code takes the
invoice lock around the insertion; the lock is modelled explicitly in the
interleaving model below). -/
def SetCustomData (i : Invoice S St V) (key : String) (val : V) : Invoice S St V :=
  let cd := match i.CustomData with
    | none => emptyMap
    | some m => m
  { i with CustomData := some (mapInsert cd key val) }

/-! ## Decimal printing: the model of `fmt.Sprintf("item_%d", ix)`

`%d` prints the decimal digits of the index.  `decDigitsAux fuel n` is the
usual most-significant-first digit algorithm, fueled so the recursion is
structural; any fuel above `n` gives the same output. -/

/-- Decimal digits of `n`, most significant first, with explicit fuel.
With fuel exhausted (never reached from `decDigits`) it returns `[]`. -/
def decDigitsAux : Nat → Nat → List Char
  | 0, _ => []
  | fuel + 1, n =>
    if n < 10 then [Nat.digitChar n]
    else decDigitsAux fuel (n / 10) ++ [Nat.digitChar (n % 10)]

/-- Decimal digits of `n`, most significant first. -/
def decDigits (n : Nat) : List Char := decDigitsAux (n + 1) n

/-- The decimal string for `n`, as printed by Go's `%d` for a non-negative
index. -/
def decRepr (n : Nat) : String := ⟨decDigits n⟩

/-- The generated transmission key `item_<ix>` (invoice.go line 191). -/
def itemKeyStr (ix : Nat) : String := "item_" ++ decRepr ix

/-- The generated transmission key `tax_<ix>` (invoice.go line 203). -/
def taxKeyStr (ix : Nat) : String := "tax_" ++ decRepr ix

/-- One loop of `PrepareForRequest` (invoice.go lines 190–200 resp. 202–209):
walk the ordered list with a running index, inserting each element under its
generated key.  The Go body inserts a zero value, reads it back, sets every
field from `value` and re-inserts: the net effect is inserting `value`
itself (a full copy, all fields equal). -/
def buildTransmission {α : Type} (key : Nat → String) :
    List α → Nat → GoMap α → GoMap α
  | [], _, m => m
  | value :: rest, ix, m =>
    buildTransmission key rest (ix + 1) (mapInsert m (key ix) value)

/-- `PrepareForRequest` (invoice.go lines 182–212): reset both transmission
maps to empty, then rebuild each from the current ordered list. -/
def PrepareForRequest (i : Invoice S St V) : Invoice S St V :=
  { i with InvoiceIn := { i.InvoiceIn with
      Items := buildTransmission itemKeyStr i.InvoiceIn.ItemsArr 0 emptyMap,
      Taxes := buildTransmission taxKeyStr i.InvoiceIn.TaxesArr 0 emptyMap } }

/-! ## Call sequences

`AddCall`/`runAddItems` replay a sequence of `AddItem` calls (each call's
error, if any, is reported to the caller and the state travels on, exactly as
a Go caller ignoring the returned `error` would see the receiver).  `Op`
covers the full mutator vocabulary for the invariant claims. -/

/-- The argument tuple of one `AddItem` call. -/
structure AddCall where
  name : String
  quantity : Int
  unitPrice : Rat
  totalPrice : Rat
  desc : String

/-- The `item` a successful `AddItem` call appends (invoice.go lines 59–66). -/
def AddCall.toItem (c : AddCall) : item :=
  ⟨c.name, c.quantity, c.unitPrice, c.totalPrice, c.desc⟩

/-- Replay a list of `AddItem` calls on a builder state. -/
def runAddItems : List AddCall → Invoice S St V → Invoice S St V
  | [], i => i
  | c :: cs, i => runAddItems cs (AddItem i c.name c.quantity c.unitPrice c.totalPrice c.desc).1

/-- One mutator call, for the name-uniqueness invariant. -/
inductive Op where
  | addItem (name : String) (quantity : Int) (unitPrice totalPrice : Rat) (desc : String)
  | removeItem (name : String)
  | clearAllItems
  | addTax (name : String) (amount : Rat)
  | removeTax (name : String)
  | clearAllTaxes
  | clear
  | prepareForRequest

/-- Apply one mutator call to a builder state. -/
def applyOp (i : Invoice S St V) : Op → Invoice S St V
  | .addItem n q up tp d => (AddItem i n q up tp d).1
  | .removeItem n => RemoveItem i n
  | .clearAllItems => ClearAllItems i
  | .addTax n a => (AddTax i n a).1
  | .removeTax n => RemoveTax i n
  | .clearAllTaxes => ClearAllTaxes i
  | .clear => Clear i
  | .prepareForRequest => PrepareForRequest i

/-- Apply a sequence of mutator calls, left to right. -/
def runOps (ops : List Op) (i : Invoice S St V) : Invoice S St V :=
  ops.foldl applyOp i

/-! ## Concrete builder states (used by the witnesses) -/

/-- A freshly constructed, empty builder state. -/
def emptyInv : Invoice Unit Unit Unit :=
  ⟨none, (), ⟨[], [], emptyMap, emptyMap, 0, "", emptyMap⟩, none⟩

/-- A builder holding two items and one tax. -/
def exInv : Invoice Unit Unit Unit :=
  ⟨none, (),
   ⟨[⟨"Phone", 1, 50, 50, "desc"⟩, ⟨"Cable", 2, 5, 10, "usb"⟩],
    [⟨"VAT", 30⟩], emptyMap, emptyMap, 0, "", emptyMap⟩, none⟩

/-! ## Interleaving model of two concurrent `SetCustomData` calls

`SetCustomData` (invoice.go lines 173–180) is, instruction by instruction:

    pc 0  read `i.CustomData`, test it against nil        (line 174)
    pc 1  if the test saw nil: `i.CustomData = make(...)` (line 175)
    pc 2  `i.Lock()`                                      (line 177)
    pc 3  `i.CustomData[key] = val`                       (line 178)
    pc 4  `i.Unlock()`                                    (line 179)
    pc 5  returned

Two threads run this program on the same invoice, thread 1 with `(k1, v1)`
and thread 2 with `(k2, v2)`.  A schedule is a list of booleans naming which
thread takes the next atomic step; a thread scheduled at `Lock()` while the
other holds the lock does not advance (the lock is always honored).  The
nil test and the map creation are two separate steps, as in the source,
where both happen before `i.Lock()`. -/

/-- Shared state plus both threads' program counters and nil-test results. -/
structure CConfig (V : Type) where
  custom : Option (GoMap V)
  lockFree : Bool
  pc1 : Nat
  saw1 : Bool
  pc2 : Nat
  saw2 : Bool

/-- One atomic step of the scheduled thread (`t = true`: thread 1). -/
def cStep (k1 : String) (v1 : V) (k2 : String) (v2 : V)
    (c : CConfig V) (t : Bool) : CConfig V :=
  if t then
    match c.pc1 with
    | 0 => { c with saw1 := c.custom.isNone, pc1 := 1 }
    | 1 => if c.saw1 then { c with custom := some emptyMap, pc1 := 2 }
           else { c with pc1 := 2 }
    | 2 => if c.lockFree then { c with lockFree := false, pc1 := 3 } else c
    | 3 => { c with custom := c.custom.map (fun m => mapInsert m k1 v1), pc1 := 4 }
    | 4 => { c with lockFree := true, pc1 := 5 }
    | _ => c
  else
    match c.pc2 with
    | 0 => { c with saw2 := c.custom.isNone, pc2 := 1 }
    | 1 => if c.saw2 then { c with custom := some emptyMap, pc2 := 2 }
           else { c with pc2 := 2 }
    | 2 => if c.lockFree then { c with lockFree := false, pc2 := 3 } else c
    | 3 => { c with custom := c.custom.map (fun m => mapInsert m k2 v2), pc2 := 4 }
    | 4 => { c with lockFree := true, pc2 := 5 }
    | _ => c

/-- Run a schedule from a configuration. -/
def cRun (k1 : String) (v1 : V) (k2 : String) (v2 : V)
    (sched : List Bool) (c : CConfig V) : CConfig V :=
  sched.foldl (cStep k1 v1 k2 v2) c

/-- Both threads at the entry of `SetCustomData`, lock free, `CustomData`
holding `cd` (`none` = the Go nil map). -/
def cInit (cd : Option (GoMap V)) : CConfig V :=
  ⟨cd, true, 0, false, 0, false⟩

/-- Read key `k` of the shared `CustomData` (a Go read of a nil map yields
the zero value, i.e. `none`). -/
def cLookup (c : CConfig V) (k : String) : Option V :=
  match c.custom with
  | none => none
  | some m => m k

/-- The schedule exhibiting the first-use race: both threads pass the nil
test before either allocates; thread 1 then allocates, locks, writes and
unlocks; thread 2's deferred allocation replaces the map holding thread 1's
write, after which thread 2 locks, writes and unlocks. -/
def raceSched : List Bool :=
  [true, false, true, true, true, true, false, false, false, false]

/-- Invariant of the interleaving model once `CustomData` starts out
initialized: the nil tests come back negative, the shared map stays
allocated, and each thread that has passed its write step has its own
binding in the map. -/
def c9Good (k1 : String) (v1 : V) (k2 : String) (v2 : V) (c : CConfig V) : Prop :=
  c.saw1 = false ∧ c.saw2 = false ∧
  ∃ m, c.custom = some m ∧
    (4 ≤ c.pc1 → m k1 = some v1) ∧ (4 ≤ c.pc2 → m k2 = some v2)

/-! ## Properties of the decimal printer -/

theorem decDigitsAux_fuel_irrel :
    ∀ f₁ f₂ n, n < f₁ → n < f₂ → decDigitsAux f₁ n = decDigitsAux f₂ n := by
  intro f₁
  induction f₁ with
  | zero => intro f₂ n h₁; omega
  | succ f ih =>
    intro f₂ n h₁ h₂
    cases f₂ with
    | zero => omega
    | succ g =>
      simp only [decDigitsAux]
      by_cases h10 : n < 10
      · simp [h10]
      · have hdiv : n / 10 < n := Nat.div_lt_self (by omega) (by omega)
        simp only [h10, if_false]
        rw [ih g (n / 10) (by omega) (by omega)]

/-- The fuel-free unfolding of `decDigits`. -/
theorem decDigits_eq (n : Nat) :
    decDigits n = if n < 10 then [Nat.digitChar n]
      else decDigits (n / 10) ++ [Nat.digitChar (n % 10)] := by
  show decDigitsAux (n + 1) n = _
  simp only [decDigitsAux]
  by_cases h10 : n < 10
  · simp [h10]
  · have hdiv : n / 10 < n := Nat.div_lt_self (by omega) (by omega)
    simp only [h10, if_false]
    rw [decDigitsAux_fuel_irrel n (n / 10 + 1) (n / 10) (by omega) (by omega)]
    rfl

theorem digitChar_inj_lt :
    ∀ a < 10, ∀ b < 10, Nat.digitChar a = Nat.digitChar b → a = b := by decide

theorem one_le_length_decDigits (n : Nat) : 1 ≤ (decDigits n).length := by
  rw [decDigits_eq]
  by_cases h10 : n < 10 <;> simp [h10]

theorem decDigits_injective : ∀ a {b : Nat}, decDigits a = decDigits b → a = b := by
  intro a
  induction a using Nat.strong_induction_on with
  | _ a ih =>
    intro b h
    rw [decDigits_eq a, decDigits_eq b] at h
    by_cases ha : a < 10 <;> by_cases hb : b < 10
    · simp only [ha, hb, if_true, List.cons.injEq, and_true] at h
      exact digitChar_inj_lt a ha b hb h
    · exfalso
      simp only [ha, hb, if_true, if_false] at h
      have hlen := congrArg List.length h
      have := one_le_length_decDigits (b / 10)
      simp only [List.length_cons, List.length_nil, List.length_append] at hlen
      omega
    · exfalso
      simp only [ha, hb, if_true, if_false] at h
      have hlen := congrArg List.length h
      have := one_le_length_decDigits (a / 10)
      simp only [List.length_cons, List.length_nil, List.length_append] at hlen
      omega
    · simp only [ha, hb, if_false] at h
      obtain ⟨h₁, h₂⟩ := List.append_inj' h (by simp)
      have hdiv : a / 10 = b / 10 :=
        ih (a / 10) (Nat.div_lt_self (by omega) (by omega)) h₁
      have hmod : a % 10 = b % 10 := by
        refine digitChar_inj_lt (a % 10) (Nat.mod_lt _ (by omega))
          (b % 10) (Nat.mod_lt _ (by omega)) ?_
        simpa using h₂
      omega

theorem decRepr_injective {a b : Nat} (h : decRepr a = decRepr b) : a = b :=
  decDigits_injective a (by simpa [decRepr, String.ext_iff] using h)

theorem itemKeyStr_inj {i j : Nat} (h : itemKeyStr i = itemKeyStr j) : i = j := by
  refine decRepr_injective (String.ext ?_)
  have hd := congrArg String.data h
  simp only [itemKeyStr, String.data_append] at hd
  exact List.append_cancel_left hd

theorem taxKeyStr_inj {i j : Nat} (h : taxKeyStr i = taxKeyStr j) : i = j := by
  refine decRepr_injective (String.ext ?_)
  have hd := congrArg String.data h
  simp only [taxKeyStr, String.data_append] at hd
  exact List.append_cancel_left hd

/-! ## Lookup in the rebuilt transmission maps -/

theorem buildTransmission_miss {α : Type} (key : Nat → String) :
    ∀ (xs : List α) (s : Nat) (m : GoMap α) (k : String),
      (∀ i, i < xs.length → k ≠ key (s + i)) →
      buildTransmission key xs s m k = m k := by
  intro xs
  induction xs with
  | nil => intro s m k _; rfl
  | cons x rest ih =>
    intro s m k h
    show buildTransmission key rest (s + 1) (mapInsert m (key s) x) k = m k
    rw [ih (s + 1) _ k ?_]
    · have h0 : k ≠ key s := by
        have := h 0 (by simp)
        simpa using this
      simp [mapInsert, h0]
    · intro i hi
      have := h (i + 1) (by simpa using Nat.succ_lt_succ hi)
      have harith : s + (i + 1) = s + 1 + i := by omega
      rwa [harith] at this

theorem buildTransmission_hit {α : Type} (key : Nat → String)
    (kinj : ∀ {i j : Nat}, key i = key j → i = j) :
    ∀ (xs : List α) (s : Nat) (m : GoMap α) (i : Nat) (h : i < xs.length),
      buildTransmission key xs s m (key (s + i)) = some (xs.get ⟨i, h⟩) := by
  intro xs
  induction xs with
  | nil => intro s m i h; exact absurd h (by simp)
  | cons x rest ih =>
    intro s m i h
    cases i with
    | zero =>
      show buildTransmission key rest (s + 1) (mapInsert m (key s) x) (key (s + 0)) = some x
      rw [buildTransmission_miss key rest (s + 1) _ _ ?_]
      · simp [mapInsert]
      · intro j _ heq
        have := kinj heq
        omega
    | succ i' =>
      show buildTransmission key rest (s + 1) (mapInsert m (key s) x) (key (s + (i' + 1)))
          = some (rest.get ⟨i', Nat.lt_of_succ_lt_succ h⟩)
      have harith : s + (i' + 1) = s + 1 + i' := by omega
      rw [harith]
      exact ih (s + 1) _ i' (Nat.lt_of_succ_lt_succ h)

/-! ## Name-uniqueness bookkeeping -/

theorem applyOp_nodup {S St V : Type} (i : Invoice S St V) (op : Op)
    (hI : (i.InvoiceIn.ItemsArr.map item.Name).Nodup)
    (hT : (i.InvoiceIn.TaxesArr.map tax.Name).Nodup) :
    ((applyOp i op).InvoiceIn.ItemsArr.map item.Name).Nodup ∧
    ((applyOp i op).InvoiceIn.TaxesArr.map tax.Name).Nodup := by
  cases op with
  | addItem n q up tp d =>
    simp only [applyOp, AddItem]
    by_cases hdup : i.InvoiceIn.ItemsArr.any (fun value => value.Name == n)
    · simp [hdup, hI, hT]
    · have hni : n ∉ i.InvoiceIn.ItemsArr.map item.Name := by
        intro hmem
        apply hdup
        obtain ⟨v, hv, hvn⟩ := List.mem_map.mp hmem
        exact List.any_eq_true.mpr ⟨v, hv, by simp [hvn]⟩
      refine ⟨?_, by simp [hdup, hT]⟩
      simp only [hdup, if_false, List.map_append, List.map_cons, List.map_nil]
      simp [List.nodup_append, hI, hni]
  | removeItem n =>
    refine ⟨?_, hT⟩
    exact ((List.eraseP_sublist _).map item.Name).nodup hI
  | clearAllItems => exact ⟨by simp [applyOp, ClearAllItems], hT⟩
  | addTax n a =>
    simp only [applyOp, AddTax]
    by_cases hdup : i.InvoiceIn.TaxesArr.any (fun value => value.Name == n)
    · simp [hdup, hI, hT]
    · have hnt : n ∉ i.InvoiceIn.TaxesArr.map tax.Name := by
        intro hmem
        apply hdup
        obtain ⟨v, hv, hvn⟩ := List.mem_map.mp hmem
        exact List.any_eq_true.mpr ⟨v, hv, by simp [hvn]⟩
      refine ⟨by simp [hdup, hI], ?_⟩
      simp only [hdup, if_false, List.map_append, List.map_cons, List.map_nil]
      simp [List.nodup_append, hT, hnt]
  | removeTax n =>
    refine ⟨hI, ?_⟩
    exact ((List.eraseP_sublist _).map tax.Name).nodup hT
  | clearAllTaxes => exact ⟨hI, by simp [applyOp, ClearAllTaxes]⟩
  | clear => exact ⟨by simp [applyOp, Clear, ClearAllItems, ClearAllTaxes],
      by simp [applyOp, Clear, ClearAllItems, ClearAllTaxes]⟩
  | prepareForRequest => exact ⟨hI, hT⟩

theorem runOps_nodup {S St V : Type} :
    ∀ (ops : List Op) (i : Invoice S St V),
      (i.InvoiceIn.ItemsArr.map item.Name).Nodup →
      (i.InvoiceIn.TaxesArr.map tax.Name).Nodup →
      ((runOps ops i).InvoiceIn.ItemsArr.map item.Name).Nodup ∧
      ((runOps ops i).InvoiceIn.TaxesArr.map tax.Name).Nodup := by
  intro ops
  induction ops with
  | nil => intro i hI hT; exact ⟨hI, hT⟩
  | cons op rest ih =>
    intro i hI hT
    obtain ⟨hI', hT'⟩ := applyOp_nodup i op hI hT
    exact ih (applyOp i op) hI' hT'

/-! ## Replaying `AddItem` call sequences -/

theorem runAddItems_append {S St V : Type} :
    ∀ (cs : List AddCall) (i : Invoice S St V),
      (cs.map AddCall.name).Nodup →
      (∀ c ∈ cs, ∀ v ∈ i.InvoiceIn.ItemsArr, v.Name ≠ c.name) →
      (runAddItems cs i).InvoiceIn.ItemsArr
        = i.InvoiceIn.ItemsArr ++ cs.map AddCall.toItem := by
  intro cs
  induction cs with
  | nil => intro i _ _; simp [runAddItems]
  | cons c rest ih =>
    intro i hnd hdisj
    have hfresh : i.InvoiceIn.ItemsArr.any (fun value => value.Name == c.name) = false := by
      rw [List.any_eq_false]
      intro v hv
      simp [hdisj c (by simp) v hv]
    show (runAddItems rest (AddItem i c.name c.quantity c.unitPrice c.totalPrice c.desc).1).InvoiceIn.ItemsArr = _
    rw [AddItem]
    simp only [hfresh, Bool.false_eq_true, if_false]
    rw [ih _ (by simpa using hnd.sublist (List.sublist_cons_self _ _)) ?_]
    · simp [AddCall.toItem]
    · intro c' hc' v hv
      rcases List.mem_append.mp hv with hv | hv
      · exact hdisj c' (by simp [hc']) v hv
      · have : v = c.toItem := by simpa using hv
        subst this
        have : c.name ∉ rest.map AddCall.name := by
          have := hnd
          simp only [List.map_cons, List.nodup_cons] at this
          exact this.1
        intro hEq
        exact this (List.mem_map.mpr ⟨c', hc', by simpa [AddCall.toItem] using hEq.symm⟩)

/-! ## Invariant of the `SetCustomData` interleaving model -/

theorem c9Good_step {V : Type} {k1 : String} {v1 : V} {k2 : String} {v2 : V}
    (hk : k1 ≠ k2) (c : CConfig V) (t : Bool)
    (h : c9Good k1 v1 k2 v2 c) : c9Good k1 v1 k2 v2 (cStep k1 v1 k2 v2 c t) := by
  obtain ⟨hs1, hs2, m, hm, h1, h2⟩ := h
  rcases c with ⟨cu, lf, pc1, s1, pc2, s2⟩
  simp only at hs1 hs2 hm h1 h2
  subst hs1 hs2 hm
  cases t
  · -- thread 2 steps
    rcases pc2 with _ | _ | _ | _ | _ | pc2 <;>
      simp only [cStep, c9Good, Bool.false_eq_true, if_false, Option.isNone_some,
        Option.map_some]
    · exact ⟨by trivial, by trivial, m, by trivial, h1, fun hle => absurd hle (by omega)⟩
    · exact ⟨by trivial, by trivial, m, by trivial, h1, fun hle => absurd hle (by omega)⟩
    · split <;>
        exact ⟨by trivial, by trivial, m, by trivial, h1, fun hle => by simp at hle⟩
    · refine ⟨by trivial, by trivial, mapInsert m k2 v2, by trivial, ?_, ?_⟩
      · intro hle
        have := h1 (by omega)
        simpa [mapInsert, hk] using this
      · intro _
        simp [mapInsert]
    · exact ⟨by trivial, by trivial, m, by trivial, h1, fun _ => h2 (by omega)⟩
    · exact ⟨by trivial, by trivial, m, by trivial, h1, fun _ => h2 (by omega)⟩
  · -- thread 1 steps
    rcases pc1 with _ | _ | _ | _ | _ | pc1 <;>
      simp only [cStep, c9Good, Bool.false_eq_true, if_true, if_false,
        Option.isNone_some, Option.map_some]
    · exact ⟨by trivial, by trivial, m, by trivial, fun hle => absurd hle (by omega), h2⟩
    · exact ⟨by trivial, by trivial, m, by trivial, fun hle => absurd hle (by omega), h2⟩
    · split <;>
        exact ⟨by trivial, by trivial, m, by trivial, fun hle => by simp at hle, h2⟩
    · refine ⟨by trivial, by trivial, mapInsert m k1 v1, by trivial, ?_, ?_⟩
      · intro _
        simp [mapInsert]
      · intro hle
        have := h2 hle
        simpa [mapInsert, Ne.symm hk] using this
    · exact ⟨by trivial, by trivial, m, by trivial, fun _ => h1 (by omega), h2⟩
    · exact ⟨by trivial, by trivial, m, by trivial, fun _ => h1 (by omega), h2⟩

theorem c9Good_run {V : Type} {k1 : String} {v1 : V} {k2 : String} {v2 : V}
    (hk : k1 ≠ k2) :
    ∀ (sched : List Bool) (c : CConfig V),
      c9Good k1 v1 k2 v2 c → c9Good k1 v1 k2 v2 (cRun k1 v1 k2 v2 sched c) := by
  intro sched
  induction sched with
  | nil => intro c h; exact h
  | cons t ts ih =>
    intro c h
    exact ih (cStep k1 v1 k2 v2 c t) (c9Good_step hk c t h)

/-! ## The claims -/

/-- C1: after `PrepareForRequest` returns, `Items` contains exactly the keys
`item_0 … item_(n-1)` for `n` the length of `ItemsArr`, key `item_i` mapped
to a copy of the element at position `i` (all five fields equal, since the
whole records are equal), and `Taxes` likewise contains exactly
`tax_0 … tax_(m-1)` mapped to copies of `TaxesArr`; every key outside those
ranges reads `none`, so nothing from any previous transmission-map contents
survives. -/
theorem prepareForRequest_exact {S St V : Type} (i : Invoice S St V) :
    (∀ ix (h : ix < i.InvoiceIn.ItemsArr.length),
        (PrepareForRequest i).InvoiceIn.Items (itemKeyStr ix)
          = some (i.InvoiceIn.ItemsArr.get ⟨ix, h⟩)) ∧
    (∀ k, (∀ ix, ix < i.InvoiceIn.ItemsArr.length → k ≠ itemKeyStr ix) →
        (PrepareForRequest i).InvoiceIn.Items k = none) ∧
    (∀ ix (h : ix < i.InvoiceIn.TaxesArr.length),
        (PrepareForRequest i).InvoiceIn.Taxes (taxKeyStr ix)
          = some (i.InvoiceIn.TaxesArr.get ⟨ix, h⟩)) ∧
    (∀ k, (∀ ix, ix < i.InvoiceIn.TaxesArr.length → k ≠ taxKeyStr ix) →
        (PrepareForRequest i).InvoiceIn.Taxes k = none) := by
  refine ⟨?_, ?_, ?_, ?_⟩
  · intro ix h
    have := buildTransmission_hit itemKeyStr (fun hij => itemKeyStr_inj hij)
      i.InvoiceIn.ItemsArr 0 emptyMap ix h
    simpa using this
  · intro k hk
    have := buildTransmission_miss itemKeyStr i.InvoiceIn.ItemsArr 0 emptyMap k
      (fun ix hix => by simpa using hk ix hix)
    simpa [emptyMap] using this
  · intro ix h
    have := buildTransmission_hit taxKeyStr (fun hij => taxKeyStr_inj hij)
      i.InvoiceIn.TaxesArr 0 emptyMap ix h
    simpa using this
  · intro k hk
    have := buildTransmission_miss taxKeyStr i.InvoiceIn.TaxesArr 0 emptyMap k
      (fun ix hix => by simpa using hk ix hix)
    simpa [emptyMap] using this

/-- Witness for C1 on a concrete builder with two items and one tax. -/
theorem prepareForRequest_exact_witness :
    (PrepareForRequest exInv).InvoiceIn.Items (itemKeyStr 1)
      = some ⟨"Cable", 2, 5, 10, "usb"⟩ ∧
    (PrepareForRequest exInv).InvoiceIn.Items "item_7" = none ∧
    (PrepareForRequest exInv).InvoiceIn.Taxes (taxKeyStr 0) = some ⟨"VAT", 30⟩ ∧
    (PrepareForRequest exInv).InvoiceIn.Taxes "tax_3" = none :=
  ⟨(prepareForRequest_exact exInv).1 1 (by decide),
   (prepareForRequest_exact exInv).2.1 "item_7" (by decide),
   (prepareForRequest_exact exInv).2.2.1 0 (by decide),
   (prepareForRequest_exact exInv).2.2.2 "tax_3" (by decide)⟩

/-- C4: `PrepareForRequest` is idempotent on a quiescent builder: running it
a second time with no intervening mutation reproduces the whole state, in
particular both transmission mappings, unchanged. -/
theorem prepareForRequest_idem {S St V : Type} (i : Invoice S St V) :
    PrepareForRequest (PrepareForRequest i) = PrepareForRequest i := rfl

/-- C7: `ClearAllItems` leaves the ordered item list empty and the item
transmission map empty, and a subsequent `PrepareForRequest` still yields an
empty item transmission map; `ClearAllTaxes` does the same on the tax side,
and `Clear` empties all four. -/
theorem clear_ops_empty {S St V : Type} (i : Invoice S St V) :
    (ClearAllItems i).InvoiceIn.ItemsArr = [] ∧
    (ClearAllItems i).InvoiceIn.Items = emptyMap ∧
    (PrepareForRequest (ClearAllItems i)).InvoiceIn.Items = emptyMap ∧
    (ClearAllTaxes i).InvoiceIn.TaxesArr = [] ∧
    (ClearAllTaxes i).InvoiceIn.Taxes = emptyMap ∧
    (PrepareForRequest (ClearAllTaxes i)).InvoiceIn.Taxes = emptyMap ∧
    (Clear i).InvoiceIn.ItemsArr = [] ∧
    (Clear i).InvoiceIn.TaxesArr = [] ∧
    (Clear i).InvoiceIn.Items = emptyMap ∧
    (Clear i).InvoiceIn.Taxes = emptyMap :=
  ⟨rfl, rfl, rfl, rfl, rfl, rfl, rfl, rfl, rfl, rfl⟩

/-- C8: `AddItem` and `RemoveItem` leave both transmission maps exactly as
they were: the maps are only rebuilt by finalization or reset by the clear
operations. -/
theorem addRemoveItem_frame {S St V : Type} (i : Invoice S St V) (name : String)
    (quantity : Int) (unitPrice totalPrice : Rat) (desc : String) :
    (AddItem i name quantity unitPrice totalPrice desc).1.InvoiceIn.Items
      = i.InvoiceIn.Items ∧
    (AddItem i name quantity unitPrice totalPrice desc).1.InvoiceIn.Taxes
      = i.InvoiceIn.Taxes ∧
    (RemoveItem i name).InvoiceIn.Items = i.InvoiceIn.Items ∧
    (RemoveItem i name).InvoiceIn.Taxes = i.InvoiceIn.Taxes := by
  refine ⟨?_, ?_, rfl, rfl⟩ <;> (unfold AddItem; split <;> rfl)

/-- C10: `PrepareForRequest` modifies only the two transmission maps: the
ordered lists, description, total amount, actions, custom data, the store
value and the setup reference all read back unchanged, so the builder can be
edited and finalized again afterwards. -/
theorem prepareForRequest_frame {S St V : Type} (i : Invoice S St V) :
    (PrepareForRequest i).Setup = i.Setup ∧
    (PrepareForRequest i).Store = i.Store ∧
    (PrepareForRequest i).InvoiceIn.ItemsArr = i.InvoiceIn.ItemsArr ∧
    (PrepareForRequest i).InvoiceIn.TaxesArr = i.InvoiceIn.TaxesArr ∧
    (PrepareForRequest i).InvoiceIn.Description = i.InvoiceIn.Description ∧
    (PrepareForRequest i).InvoiceIn.TotalAmount = i.InvoiceIn.TotalAmount ∧
    (PrepareForRequest i).InvoiceIn.Actions = i.InvoiceIn.Actions ∧
    (PrepareForRequest i).CustomData = i.CustomData :=
  ⟨rfl, rfl, rfl, rfl, rfl, rfl, rfl, rfl⟩

/-- C2: `AddItem` on a name already present (case-sensitive exact match)
returns the duplicate-name error and leaves the whole state — in particular
`ItemsArr` — unchanged; on a fresh name it reports no error and appends the
new line item built from the arguments to the end of `ItemsArr`; and any
sequence of `AddItem` calls with pairwise distinct names, starting from an
empty item list, produces exactly the called items in call order (so the
length equals the call count). -/
theorem addItem_spec {S St V : Type} (i : Invoice S St V) (name : String)
    (quantity : Int) (unitPrice totalPrice : Rat) (desc : String) :
    ((∃ v ∈ i.InvoiceIn.ItemsArr, v.Name = name) →
        AddItem i name quantity unitPrice totalPrice desc
          = (i, some ("Invoice item with name " ++ name ++ " already exists"))) ∧
    ((∀ v ∈ i.InvoiceIn.ItemsArr, v.Name ≠ name) →
        (AddItem i name quantity unitPrice totalPrice desc).2 = none ∧
        (AddItem i name quantity unitPrice totalPrice desc).1.InvoiceIn.ItemsArr
          = i.InvoiceIn.ItemsArr ++ [⟨name, quantity, unitPrice, totalPrice, desc⟩]) ∧
    (∀ (cs : List AddCall) (i₀ : Invoice S St V),
        i₀.InvoiceIn.ItemsArr = [] → (cs.map AddCall.name).Nodup →
        (runAddItems cs i₀).InvoiceIn.ItemsArr = cs.map AddCall.toItem) := by
  refine ⟨?_, ?_, ?_⟩
  · intro ⟨v, hv, hvn⟩
    have : i.InvoiceIn.ItemsArr.any (fun value => value.Name == name) = true :=
      List.any_eq_true.mpr ⟨v, hv, by simp [hvn]⟩
    simp [AddItem, this]
  · intro h
    have : i.InvoiceIn.ItemsArr.any (fun value => value.Name == name) = false := by
      rw [List.any_eq_false]
      intro v hv
      simp [h v hv]
    constructor <;> simp [AddItem, this]
  · intro cs i₀ h₀ hnd
    rw [runAddItems_append cs i₀ hnd (fun c _ v hv => by simp [h₀] at hv), h₀,
      List.nil_append]

/-- Witness for C2: a duplicate name is rejected with the state intact, a
fresh name is appended, and a two-call distinct-name sequence from the empty
builder yields both items in call order. -/
theorem addItem_spec_witness :
    AddItem exInv "Phone" 3 7 21 "again"
      = (exInv, some "Invoice item with name Phone already exists") ∧
    ((AddItem exInv "Mouse" 1 9 9 "m").2 = none ∧
      (AddItem exInv "Mouse" 1 9 9 "m").1.InvoiceIn.ItemsArr
        = exInv.InvoiceIn.ItemsArr ++ [⟨"Mouse", 1, 9, 9, "m"⟩]) ∧
    (runAddItems [⟨"A", 1, 2, 2, "a"⟩, ⟨"B", 1, 3, 3, "b"⟩] emptyInv).InvoiceIn.ItemsArr
      = [⟨"A", 1, 2, 2, "a"⟩, ⟨"B", 1, 3, 3, "b"⟩] :=
  ⟨(addItem_spec exInv "Phone" 3 7 21 "again").1
      ⟨⟨"Phone", 1, 50, 50, "desc"⟩, by decide, rfl⟩,
   (addItem_spec exInv "Mouse" 1 9 9 "m").2.1 (by decide),
   (addItem_spec exInv "X" 0 0 0 "x").2.2
      [⟨"A", 1, 2, 2, "a"⟩, ⟨"B", 1, 3, 3, "b"⟩] emptyInv rfl (by decide)⟩

/-- C3: `RemoveItem` with a name matching no item is a no-op returning the
state unchanged (and no error — it returns nothing at all); with a present
name it removes exactly the first match, shortening the list by one and
keeping all remaining elements in relative order; `RemoveTax` behaves
symmetrically on `TaxesArr`. -/
theorem removeItem_removeTax_spec {S St V : Type} (i : Invoice S St V) (name : String) :
    ((∀ v ∈ i.InvoiceIn.ItemsArr, v.Name ≠ name) → RemoveItem i name = i) ∧
    ((∃ v ∈ i.InvoiceIn.ItemsArr, v.Name = name) →
        (RemoveItem i name).InvoiceIn.ItemsArr.length + 1
            = i.InvoiceIn.ItemsArr.length ∧
        ∃ x l₁ l₂, x.Name = name ∧ (∀ y ∈ l₁, y.Name ≠ name) ∧
          i.InvoiceIn.ItemsArr = l₁ ++ x :: l₂ ∧
          (RemoveItem i name).InvoiceIn.ItemsArr = l₁ ++ l₂) ∧
    ((∀ v ∈ i.InvoiceIn.TaxesArr, v.Name ≠ name) → RemoveTax i name = i) ∧
    ((∃ v ∈ i.InvoiceIn.TaxesArr, v.Name = name) →
        (RemoveTax i name).InvoiceIn.TaxesArr.length + 1
            = i.InvoiceIn.TaxesArr.length ∧
        ∃ x l₁ l₂, x.Name = name ∧ (∀ y ∈ l₁, y.Name ≠ name) ∧
          i.InvoiceIn.TaxesArr = l₁ ++ x :: l₂ ∧
          (RemoveTax i name).InvoiceIn.TaxesArr = l₁ ++ l₂) := by
  refine ⟨?_, ?_, ?_, ?_⟩
  · intro h
    have : i.InvoiceIn.ItemsArr.eraseP (fun value => value.Name == name)
        = i.InvoiceIn.ItemsArr :=
      List.eraseP_of_forall_not (fun v hv => by simp [h v hv])
    simp [RemoveItem, this]
  · intro ⟨v, hv, hvn⟩
    obtain ⟨x, l₁, l₂, hl₁, hx, harr, herase⟩ :=
      List.exists_of_eraseP hv (p := fun value => value.Name == name) (by simp [hvn])
    refine ⟨?_, x, l₁, l₂, by simpa using hx, fun y hy => by simpa using hl₁ y hy,
      harr, by simpa [RemoveItem] using herase⟩
    simp only [RemoveItem]
    rw [herase, harr]
    simp only [List.length_append, List.length_cons]
    omega
  · intro h
    have : i.InvoiceIn.TaxesArr.eraseP (fun value => value.Name == name)
        = i.InvoiceIn.TaxesArr :=
      List.eraseP_of_forall_not (fun v hv => by simp [h v hv])
    simp [RemoveTax, this]
  · intro ⟨v, hv, hvn⟩
    obtain ⟨x, l₁, l₂, hl₁, hx, harr, herase⟩ :=
      List.exists_of_eraseP hv (p := fun value => value.Name == name) (by simp [hvn])
    refine ⟨?_, x, l₁, l₂, by simpa using hx, fun y hy => by simpa using hl₁ y hy,
      harr, by simpa [RemoveTax] using herase⟩
    simp only [RemoveTax]
    rw [herase, harr]
    simp only [List.length_append, List.length_cons]
    omega

/-- Witness for C3: removing an absent name is the identity; removing a
present name drops exactly that element. -/
theorem removeItem_removeTax_spec_witness :
    RemoveItem exInv "Nope" = exInv ∧
    ((RemoveItem exInv "Cable").InvoiceIn.ItemsArr.length + 1
        = exInv.InvoiceIn.ItemsArr.length ∧
      ∃ x l₁ l₂, x.Name = "Cable" ∧ (∀ y ∈ l₁, y.Name ≠ "Cable") ∧
        exInv.InvoiceIn.ItemsArr = l₁ ++ x :: l₂ ∧
        (RemoveItem exInv "Cable").InvoiceIn.ItemsArr = l₁ ++ l₂) ∧
    RemoveTax exInv "Nope" = exInv ∧
    ((RemoveTax exInv "VAT").InvoiceIn.TaxesArr.length + 1
        = exInv.InvoiceIn.TaxesArr.length ∧
      ∃ x l₁ l₂, x.Name = "VAT" ∧ (∀ y ∈ l₁, y.Name ≠ "VAT") ∧
        exInv.InvoiceIn.TaxesArr = l₁ ++ x :: l₂ ∧
        (RemoveTax exInv "VAT").InvoiceIn.TaxesArr = l₁ ++ l₂) :=
  ⟨(removeItem_removeTax_spec exInv "Nope").1 (by decide),
   (removeItem_removeTax_spec exInv "Cable").2.1
      ⟨⟨"Cable", 2, 5, 10, "usb"⟩, by decide, rfl⟩,
   (removeItem_removeTax_spec exInv "Nope").2.2.1 (by decide),
   (removeItem_removeTax_spec exInv "VAT").2.2.2 ⟨⟨"VAT", 30⟩, by decide, rfl⟩⟩

/-- C6: `SetDescription` fails fatally (modelled as `none`) exactly when the
argument is the empty string and otherwise stores the argument in the
description field; `SetTotalAmount` fails fatally exactly when the argument
equals zero and otherwise stores it, so that reading the total amount back
yields the argument. -/
theorem setters_precondition {S St V : Type} (i : Invoice S St V)
    (desc : String) (amt : Rat) :
    (SetDescription i desc = none ↔ desc = "") ∧
    (desc ≠ "" → SetDescription i desc
        = some { i with InvoiceIn := { i.InvoiceIn with Description := desc } }) ∧
    (SetTotalAmount i amt = none ↔ amt = 0) ∧
    (amt ≠ 0 → SetTotalAmount i amt
        = some { i with InvoiceIn := { i.InvoiceIn with TotalAmount := amt } }) ∧
    (amt ≠ 0 → (SetTotalAmount i amt).map (fun r => r.InvoiceIn.TotalAmount)
        = some amt) := by
  refine ⟨?_, ?_, ?_, ?_, ?_⟩
  · by_cases h : desc = "" <;> simp [SetDescription, h]
  · intro h
    simp [SetDescription, h]
  · by_cases h : amt = 0 <;> simp [SetTotalAmount, h]
  · intro h
    simp [SetTotalAmount, h]
  · intro h
    simp [SetTotalAmount, h]

/-- Witness for C6: the empty string and the zero amount panic; amount 42.5
is stored and read back as 42.5. -/
theorem setters_precondition_witness :
    SetDescription emptyInv "" = none ∧
    SetDescription emptyInv "Hello World"
      = some { emptyInv with InvoiceIn :=
          { emptyInv.InvoiceIn with Description := "Hello World" } } ∧
    SetTotalAmount emptyInv 0 = none ∧
    (SetTotalAmount emptyInv 42.5).map (fun r => r.InvoiceIn.TotalAmount)
      = some 42.5 :=
  ⟨(setters_precondition emptyInv "" 0).1.mpr rfl,
   (setters_precondition emptyInv "Hello World" 0).2.1 (by decide),
   (setters_precondition emptyInv "" 0).2.2.1.mpr rfl,
   (setters_precondition emptyInv "" 42.5).2.2.2.2 (by norm_num)⟩

/-- C5: name-uniqueness is an invariant: starting from a builder whose item
and tax lists are empty (a freshly constructed builder), after any sequence
of `AddItem`, `RemoveItem`, `ClearAllItems`, `AddTax`, `RemoveTax`,
`ClearAllTaxes`, `Clear` and `PrepareForRequest` calls, the item names are
pairwise distinct and the tax names are pairwise distinct.  The proof rests
only on the insertion guards of `AddItem`/`AddTax` (see `applyOp_nodup`) —
`PrepareForRequest` never touches the lists — matching that uniqueness is
enforced at insertion, not at conversion time. -/
theorem names_unique_invariant {S St V : Type} (ops : List Op) (i₀ : Invoice S St V)
    (hI : i₀.InvoiceIn.ItemsArr = []) (hT : i₀.InvoiceIn.TaxesArr = []) :
    ((runOps ops i₀).InvoiceIn.ItemsArr.map item.Name).Nodup ∧
    ((runOps ops i₀).InvoiceIn.TaxesArr.map tax.Name).Nodup :=
  runOps_nodup ops i₀ (by simp [hI]) (by simp [hT])

/-- Witness for C5 on a concrete call sequence (with a duplicate `AddItem`
attempt, removals and a finalization in the middle). -/
theorem names_unique_invariant_witness :
    ((runOps [.addItem "A" 1 2 2 "a", .addItem "A" 3 4 4 "dup", .addTax "VAT" 30,
        .addItem "B" 1 5 5 "b", .prepareForRequest, .removeItem "A",
        .addItem "A" 2 6 12 "back"] emptyInv).InvoiceIn.ItemsArr.map item.Name).Nodup ∧
    ((runOps [.addItem "A" 1 2 2 "a", .addItem "A" 3 4 4 "dup", .addTax "VAT" 30,
        .addItem "B" 1 5 5 "b", .prepareForRequest, .removeItem "A",
        .addItem "A" 2 6 12 "back"] emptyInv).InvoiceIn.TaxesArr.map tax.Name).Nodup :=
  names_unique_invariant _ emptyInv rfl rfl

/-- C9, counterexample: the claim promises that two concurrent
`SetCustomData` calls with different keys never lose an update as long as
the lock is honored.  In the source, however, the nil test and the map
allocation (lines 174–176) run before `i.Lock()` (line 177).  Under the
schedule `raceSched` — every step of which honors the lock — both calls run
to completion on an invoice whose `CustomData` starts nil, yet afterwards
key "a" is absent: thread 1's insertion was lost when thread 2's deferred
allocation replaced the map.  Each conjunct is evaluated on the concrete
run. -/
theorem setCustomData_race_counterexample :
    (cRun "a" (1 : Nat) "b" 2 raceSched (cInit none)).pc1 = 5 ∧
    (cRun "a" (1 : Nat) "b" 2 raceSched (cInit none)).pc2 = 5 ∧
    cLookup (cRun "a" (1 : Nat) "b" 2 raceSched (cInit none)) "a" = none ∧
    cLookup (cRun "a" (1 : Nat) "b" 2 raceSched (cInit none)) "b" = some 2 :=
  ⟨rfl, rfl, by decide, by decide⟩

/-- C9, amended: `SetCustomData` inserts or overwrites the given key, and
initializes the mapping on its first use — but the nil test and the
initialization run before the invoice's lock is acquired; only the map write
itself is under the lock.  Consequently two concurrent `SetCustomData` calls
with different keys are guaranteed to leave both keys present (no lost
update) under every lock-honoring schedule provided `customData` is already
initialized when the calls start; on concurrent first use a lost update is
possible (see the counterexample). -/
theorem setCustomData_no_lost_update_initialized {V : Type} (m : GoMap V)
    (k1 : String) (v1 : V) (k2 : String) (v2 : V) (sched : List Bool)
    (hk : k1 ≠ k2)
    (h1 : (cRun k1 v1 k2 v2 sched (cInit (some m))).pc1 = 5)
    (h2 : (cRun k1 v1 k2 v2 sched (cInit (some m))).pc2 = 5) :
    cLookup (cRun k1 v1 k2 v2 sched (cInit (some m))) k1 = some v1 ∧
    cLookup (cRun k1 v1 k2 v2 sched (cInit (some m))) k2 = some v2 := by
  have hgood : c9Good k1 v1 k2 v2 (cRun k1 v1 k2 v2 sched (cInit (some m))) := by
    refine c9Good_run hk sched (cInit (some m)) ?_
    exact ⟨rfl, rfl, m, rfl, fun hle => absurd hle (by simp [cInit]),
      fun hle => absurd hle (by simp [cInit])⟩
  obtain ⟨-, -, m', hm', hk1, hk2⟩ := hgood
  unfold cLookup
  rw [hm']
  exact ⟨hk1 (by omega), hk2 (by omega)⟩

/-- Witness for the amended C9: with the map already allocated (and empty),
thread 1 runs to completion and then thread 2 does; both keys are present at
the end. -/
theorem setCustomData_no_lost_update_initialized_witness :
    cLookup (cRun "a" (1 : Nat) "b" 2
        [true, true, true, true, true, false, false, false, false, false]
        (cInit (some emptyMap))) "a" = some 1 ∧
    cLookup (cRun "a" (1 : Nat) "b" 2
        [true, true, true, true, true, false, false, false, false, false]
        (cInit (some emptyMap))) "b" = some 2 :=
  setCustomData_no_lost_update_initialized emptyMap "a" 1 "b" 2
    [true, true, true, true, true, false, false, false, false, false]
    (by decide) rfl rfl

end MPower
